import Mathlib

/-!
Shallow embedding of the playback/queue controller of the music-player app
(frontend `App.jsx`).  The React component state becomes an explicit record,
each event handler becomes a pure state-transformer, and the two sources of
nondeterminism — the random shuffle pick (`Math.floor(Math.random() * n)`)
and the elapsed time of the current track (`audio.currentTime`) — become
explicit parameters of the handlers that consult them.  Direct calls into
the audio element (`currentTime = 0`, `play()`) are modelled as an emitted
list of adapter calls where a claim is about them.
-/

namespace MusicApp

/-- A track of the library: `{ id, title, url }` as created by `handleUpload`
or returned from the server. -/
structure Track where
  id : String
  title : String
  url : String
deriving DecidableEq, Repr

/-- The repeat mode cycled by `toggleRepeatMode`: `'off'`, `'all'`, `'one'`. -/
inductive RepeatMode where
  | off
  | all
  | one
deriving DecidableEq, Repr

/-- The component state of `App`: `tracks`, `currentIndex` (`null` = `none`),
`isPlaying`, `shuffle`, `repeatMode` and `volume`.  `currentTime` and
`duration` mirror the audio element and are passed as parameters where a
handler reads them. -/
structure AppState where
  tracks : List Track
  currentIndex : Option Nat
  isPlaying : Bool
  shuffle : Bool
  repeatMode : RepeatMode
  volume : ℚ
deriving DecidableEq, Repr

/-- The initial component state: all `useState` initialisers of `App`. -/
def initialState : AppState :=
  { tracks := []
    currentIndex := none
    isPlaying := false
    shuffle := false
    repeatMode := .off
    volume := 0.8 }

/-- Calls the transport issues directly on the audio element. -/
inductive AdapterCall where
  | seek (t : ℚ)
  | play
  | pause
deriving DecidableEq, Repr

/-- `handleNext`: `r` is the value of `Math.floor(Math.random() * tracks.length)`.
The shuffle branch compares the pick against `currentIndex` with `===`, which
is false when `currentIndex` is `null`. -/
def handleNext (r : Nat) (s : AppState) : AppState :=
  if s.tracks.length = 0 then s
  else if s.shuffle then
    let next := if s.tracks.length > 1 ∧ some r = s.currentIndex
      then (r + 1) % s.tracks.length
      else r
    { s with currentIndex := some next, isPlaying := true }
  else match s.currentIndex with
    | none => s
    | some i =>
      if i + 1 ≥ s.tracks.length then
        match s.repeatMode with
        | .all => { s with currentIndex := some 0, isPlaying := true }
        | _ => { s with isPlaying := false }
      else { s with currentIndex := some (i + 1), isPlaying := true }

/-- `handlePrev`: `r` is the random pick, `t` the audio element's
`currentTime`.  When `t > 5` the handler only rewinds the audio element and
leaves the component state untouched. -/
def handlePrev (r : Nat) (t : ℚ) (s : AppState) : AppState :=
  if s.tracks.length = 0 then s
  else if t > 5 then s
  else if s.shuffle then
    let prev := if s.tracks.length > 1 ∧ some r = s.currentIndex
      then (r + s.tracks.length - 1) % s.tracks.length
      else r
    { s with currentIndex := some prev, isPlaying := true }
  else match s.currentIndex with
    | none => s
    | some i =>
      if i = 0 then
        match s.repeatMode with
        | .all => { s with currentIndex := some (s.tracks.length - 1), isPlaying := true }
        | _ => { s with isPlaying := false }
      else { s with currentIndex := some (i - 1), isPlaying := true }

/-- `handleEnded`: with `repeatMode = 'one'` it rewinds and replays the audio
element without touching the component state; otherwise it delegates to
`handleNext`.  The second component lists the direct adapter calls. -/
def handleEnded (r : Nat) (s : AppState) : AppState × List AdapterCall :=
  if s.repeatMode = .one then (s, [.seek 0, .play])
  else (handleNext r s, [])

/-- `handleRemove` in client-only mode (`API_BASE = ""`): `tracks[index]`
is defined exactly when `index < tracks.length`, the filter drops position
`index`, and `currentIndex` is rebased. -/
def handleRemove (j : Nat) (s : AppState) : AppState :=
  if j < s.tracks.length then
    let tracks' := s.tracks.eraseIdx j
    match s.currentIndex with
    | none => { s with tracks := tracks' }
    | some i =>
      if j < i then { s with tracks := tracks', currentIndex := some (i - 1) }
      else if j = i then
        { s with tracks := tracks', currentIndex := none, isPlaying := false }
      else { s with tracks := tracks' }
  else s

/-- `handleRemove` in server mode: the `DELETE` fetch happens first; `ok`
records whether it resolved.  When it rejects, control jumps to the `catch`
block and no state update runs.  (With `currentIndex` equal to `null`, both
JS comparisons `index < null` and `index === null` are false, so the index
is untouched.) -/
def handleRemoveServer (ok : Bool) (j : Nat) (s : AppState) : AppState :=
  if j < s.tracks.length then
    if ok then
      let tracks' := s.tracks.eraseIdx j
      match s.currentIndex with
      | none => { s with tracks := tracks' }
      | some i =>
        if j < i then { s with tracks := tracks', currentIndex := some (i - 1) }
        else if j = i then
          { s with tracks := tracks', currentIndex := none, isPlaying := false }
        else { s with tracks := tracks' }
    else s
  else s

/-- `handleSelect`: out-of-range indices (negative or `≥ tracks.length`)
are ignored. -/
def handleSelect (j : Int) (s : AppState) : AppState :=
  if j < 0 ∨ (s.tracks.length : Int) ≤ j then s
  else { s with currentIndex := some j.toNat, isPlaying := true }

/-- `handlePlayPause`: with nothing selected it starts the first track when
one exists; otherwise it flips `isPlaying`. -/
def handlePlayPause (s : AppState) : AppState :=
  match s.currentIndex with
  | none =>
    if s.tracks.length > 0 then { s with currentIndex := some 0, isPlaying := true }
    else s
  | some _ => { s with isPlaying := !s.isPlaying }

/-- `handleUpload` in client-only mode: `ts` is the list of tracks built from
the chosen files (empty selection returns early); they are appended and, when
nothing was selected, index `0` is selected without touching `isPlaying`. -/
def handleUpload (ts : List Track) (s : AppState) : AppState :=
  if ts.isEmpty then s
  else
    match s.currentIndex with
    | none => { s with tracks := s.tracks ++ ts, currentIndex := some 0 }
    | some _ => { s with tracks := s.tracks ++ ts }

/-- `toggleRepeatMode`: `off → all → one → off`. -/
def toggleRepeatMode (m : RepeatMode) : RepeatMode :=
  match m with
  | .off => .all
  | .all => .one
  | .one => .off

/-- `toggleShuffle`. -/
def toggleShuffle (s : AppState) : AppState :=
  { s with shuffle := !s.shuffle }

/-- The mute button: `setVolume((v) => (v > 0 ? 0 : 0.8))`. -/
def muteToggle (s : AppState) : AppState :=
  { s with volume := if s.volume > 0 then 0 else 0.8 }

/-- States reachable from the initial state by the public operations.  The
random pick `r` for next/previous/ended satisfies `r < tracks.length` when
the library is non-empty (`Math.floor(Math.random() * n) ∈ [0, n)`); on the
empty library the handlers return before consulting it. -/
inductive Reachable : AppState → Prop where
  | init : Reachable initialState
  | upload (ts : List Track) {s} : Reachable s → Reachable (handleUpload ts s)
  | remove (j : Nat) {s} : Reachable s → Reachable (handleRemove j s)
  | select (j : Int) {s} : Reachable s → Reachable (handleSelect j s)
  | playPause {s} : Reachable s → Reachable (handlePlayPause s)
  | next (r : Nat) {s} : Reachable s → (r < s.tracks.length ∨ s.tracks.length = 0) →
      Reachable (handleNext r s)
  | prev (r : Nat) (t : ℚ) {s} : Reachable s →
      (r < s.tracks.length ∨ s.tracks.length = 0) → Reachable (handlePrev r t s)
  | ended (r : Nat) {s} : Reachable s → (r < s.tracks.length ∨ s.tracks.length = 0) →
      Reachable (handleEnded r s).1
  | shuffleFlip {s} : Reachable s → Reachable (toggleShuffle s)
  | repeatCycle {s} : Reachable s →
      Reachable { s with repeatMode := toggleRepeatMode s.repeatMode }
  | mute {s} : Reachable s → Reachable (muteToggle s)

/-- Inductive strengthening of the spec invariant: a playing state has a
selection, and any selection is in range. -/
def Inv (s : AppState) : Prop :=
  (s.isPlaying = true → s.currentIndex ≠ none) ∧
  (∀ i, s.currentIndex = some i → i < s.tracks.length)

/-- A one-track library with shuffle on and nothing selected. -/
def c1State : AppState :=
  { tracks := [⟨"t1", "a", "u"⟩]
    currentIndex := none
    isPlaying := false
    shuffle := true
    repeatMode := .off
    volume := 0.8 }

/-- C1 (counterexample): with `currentIndex = none`, `shuffle = true` and a
non-empty library, `handleNext` is not a no-op — the shuffle branch runs
before the `currentIndex === null` guard, selects a track and starts
playing. -/
theorem C1_counterexample :
    (handleNext 0 c1State).currentIndex = some 0 ∧
    (handleNext 0 c1State).isPlaying = true := by
  constructor <;> rfl

/-- C1 (amended): when `currentIndex` is `none` and shuffle is off (or the
library is empty), `handleNext`, `handlePrev` and `handleEnded` leave the
state unchanged, for every repeat mode. -/
theorem C1_noop_when_unselected (s : AppState) (r : Nat) (t : ℚ)
    (hidx : s.currentIndex = none)
    (h : s.shuffle = false ∨ s.tracks = []) :
    handleNext r s = s ∧ handlePrev r t s = s ∧ (handleEnded r s).1 = s := by
  have hN : handleNext r s = s := by
    rcases h with h | h
    · simp [handleNext, hidx, h]
    · simp [handleNext, h]
  have hP : handlePrev r t s = s := by
    rcases h with h | h
    · simp [handlePrev, hidx, h]
    · simp [handlePrev, h]
  have hE : (handleEnded r s).1 = s := by
    unfold handleEnded
    split
    · rfl
    · simpa using hN
  exact ⟨hN, hP, hE⟩

/-- C1 witness: the amended no-op property at the initial state. -/
theorem C1_witness :
    handleNext 0 initialState = initialState ∧
    handlePrev 0 0 initialState = initialState ∧
    (handleEnded 0 initialState).1 = initialState :=
  C1_noop_when_unselected initialState 0 0 rfl (Or.inl rfl)

/-- On a collision of the shuffle pick with the current index, the adjusted
next index differs from the current one. -/
theorem shuffle_adjust_next_ne (i n : Nat) (h1 : 1 < n) (h2 : i < n) :
    (i + 1) % n ≠ i := by
  rcases Nat.lt_or_ge (i + 1) n with h | h
  · rw [Nat.mod_eq_of_lt h]
    omega
  · have hn : i + 1 = n := by omega
    rw [hn, Nat.mod_self]
    omega

/-- On a collision of the shuffle pick with the current index, the adjusted
previous index differs from the current one. -/
theorem shuffle_adjust_prev_ne (i n : Nat) (h1 : 1 < n) (h2 : i < n) :
    (i + n - 1) % n ≠ i := by
  rcases Nat.eq_zero_or_pos i with h | h
  · subst h
    rw [Nat.zero_add, Nat.mod_eq_of_lt (by omega)]
    omega
  · have hn : i + n - 1 = (i - 1) + n := by omega
    rw [hn, Nat.add_mod_right, Nat.mod_eq_of_lt (by omega)]
    omega

/-- C2: with shuffle on and more than one track, for every random pick
`r < length` the index decided by `handleNext` (and, below the 5-second
threshold, by `handlePrev`) is in range and never equals the current index;
on a collision `handleNext` advances by `(+1) mod length` and `handlePrev`
steps back by `(-1) mod length`, otherwise the pick is used as is. -/
theorem C2_shuffle_never_repeats (s : AppState) (r i : Nat) (t : ℚ)
    (hsh : s.shuffle = true) (hlen : 1 < s.tracks.length)
    (hr : r < s.tracks.length) (hidx : s.currentIndex = some i) :
    (∃ k, (handleNext r s).currentIndex = some k ∧ k < s.tracks.length ∧ k ≠ i ∧
        (r = i → k = (r + 1) % s.tracks.length) ∧ (r ≠ i → k = r)) ∧
    (t ≤ 5 →
      ∃ k, (handlePrev r t s).currentIndex = some k ∧ k < s.tracks.length ∧ k ≠ i ∧
        (r = i → k = (r + s.tracks.length - 1) % s.tracks.length) ∧ (r ≠ i → k = r)) := by
  have hne : ¬ s.tracks.length = 0 := by omega
  have hri_lt : ∀ j, r = j → j < s.tracks.length := fun j hj => hj ▸ hr
  constructor
  · by_cases hri : r = i
    · subst hri
      refine ⟨(r + 1) % s.tracks.length, ?_, Nat.mod_lt _ (by omega), ?_,
        fun _ => rfl, fun hc => absurd rfl hc⟩
      · simp [handleNext, hne, hsh, hidx, hlen]
      · exact shuffle_adjust_next_ne r s.tracks.length hlen hr
    · refine ⟨r, ?_, hr, hri, fun hc => absurd hc hri, fun _ => rfl⟩
      simp [handleNext, hne, hsh, hidx, hri]
  · intro ht
    have hnt : ¬ t > 5 := by linarith
    by_cases hri : r = i
    · subst hri
      refine ⟨(r + s.tracks.length - 1) % s.tracks.length, ?_,
        Nat.mod_lt _ (by omega), ?_, fun _ => rfl, fun hc => absurd rfl hc⟩
      · simp [handlePrev, hne, hsh, hidx, hlen, hnt]
      · exact shuffle_adjust_prev_ne r s.tracks.length hlen hr
    · refine ⟨r, ?_, hr, hri, fun hc => absurd hc hri, fun _ => rfl⟩
      simp [handlePrev, hne, hsh, hidx, hri, hnt]

/-- A two-track library with shuffle on, first track selected. -/
def c2State : AppState :=
  { tracks := [⟨"t1", "a", "u"⟩, ⟨"t2", "b", "v"⟩]
    currentIndex := some 0
    isPlaying := true
    shuffle := true
    repeatMode := .off
    volume := 0.8 }

/-- C2 witness: the no-immediate-repeat property at a concrete state with a
colliding pick. -/
theorem C2_witness :
    (∃ k, (handleNext 0 c2State).currentIndex = some k ∧ k < c2State.tracks.length ∧
        k ≠ 0 ∧ (0 = 0 → k = (0 + 1) % c2State.tracks.length) ∧ ((0 : Nat) ≠ 0 → k = 0)) ∧
    ((0 : ℚ) ≤ 5 →
      ∃ k, (handlePrev 0 0 c2State).currentIndex = some k ∧ k < c2State.tracks.length ∧
        k ≠ 0 ∧ (0 = 0 → k = (0 + c2State.tracks.length - 1) % c2State.tracks.length) ∧
        ((0 : Nat) ≠ 0 → k = 0)) :=
  C2_shuffle_never_repeats c2State 0 0 0 rfl (by decide) (by decide) rfl

/-- C3: with shuffle off and repeat off, `handleNext` at the last index only
clears `isPlaying` (the index stays), and `handlePrev` at index `0` with at
most 5 seconds elapsed does the same. -/
theorem C3_repeat_off_stops (s : AppState) (r : Nat) (t : ℚ)
    (hsh : s.shuffle = false) (hrep : s.repeatMode = .off)
    (hlen : 0 < s.tracks.length) :
    (s.currentIndex = some (s.tracks.length - 1) →
      handleNext r s = { s with isPlaying := false }) ∧
    (s.currentIndex = some 0 → t ≤ 5 →
      handlePrev r t s = { s with isPlaying := false }) := by
  have hne : ¬ s.tracks.length = 0 := by omega
  constructor
  · intro hidx
    have h1 : s.tracks.length - 1 + 1 ≥ s.tracks.length := by omega
    simp [handleNext, hne, hsh, hidx, h1, hrep]
  · intro hidx ht
    have hnt : ¬ t > 5 := by linarith
    simp [handlePrev, hne, hnt, hsh, hidx, hrep]

/-- A one-track library, playing, repeat off. -/
def c3State : AppState :=
  { tracks := [⟨"t1", "a", "u"⟩]
    currentIndex := some 0
    isPlaying := true
    shuffle := false
    repeatMode := .off
    volume := 0.8 }

/-- C3 witness: stopping at the boundary on a concrete one-track library. -/
theorem C3_witness :
    handleNext 0 c3State = { c3State with isPlaying := false } ∧
    handlePrev 0 0 c3State = { c3State with isPlaying := false } :=
  ⟨(C3_repeat_off_stops c3State 0 0 rfl rfl (by decide)).1 rfl,
   (C3_repeat_off_stops c3State 0 0 rfl rfl (by decide)).2 rfl (by norm_num)⟩

/-- C4: with shuffle off and repeat all, `handleNext` at any in-range index
moves to `(i + 1) mod length` and keeps playing, and `handlePrev` at index
`0` (with at most 5 seconds elapsed) wraps to the last index and keeps
playing. -/
theorem C4_repeat_all_wraps (s : AppState) (r i : Nat) (t : ℚ)
    (hsh : s.shuffle = false) (hrep : s.repeatMode = .all)
    (hi : i < s.tracks.length) (hidx : s.currentIndex = some i) :
    handleNext r s =
      { s with currentIndex := some ((i + 1) % s.tracks.length), isPlaying := true } ∧
    (i = 0 → t ≤ 5 →
      handlePrev r t s =
        { s with currentIndex := some (s.tracks.length - 1), isPlaying := true }) := by
  have hne : ¬ s.tracks.length = 0 := by omega
  constructor
  · by_cases hcase : i + 1 ≥ s.tracks.length
    · have hmod : (i + 1) % s.tracks.length = 0 := by
        have h1 : i + 1 = s.tracks.length := by omega
        rw [h1, Nat.mod_self]
      simp [handleNext, hne, hsh, hidx, hcase, hrep, hmod]
    · have hmod : (i + 1) % s.tracks.length = i + 1 := Nat.mod_eq_of_lt (by omega)
      simp [handleNext, hne, hsh, hidx, hcase, hrep, hmod]
  · intro h0 ht
    subst h0
    have hnt : ¬ t > 5 := by linarith
    simp [handlePrev, hne, hsh, hidx, hrep, hnt]

/-- A two-track library, repeat all, first track selected. -/
def c4State : AppState :=
  { tracks := [⟨"t1", "a", "u"⟩, ⟨"t2", "b", "v"⟩]
    currentIndex := some 0
    isPlaying := true
    shuffle := false
    repeatMode := .all
    volume := 0.8 }

/-- C4 witness: advancing and wrapping around on a concrete two-track
library. -/
theorem C4_witness :
    handleNext 0 c4State =
      { c4State with
        currentIndex := some ((0 + 1) % c4State.tracks.length)
        isPlaying := true } ∧
    handlePrev 0 0 c4State =
      { c4State with
        currentIndex := some (c4State.tracks.length - 1)
        isPlaying := true } :=
  ⟨(C4_repeat_all_wraps c4State 0 0 0 rfl rfl (by decide) rfl).1,
   (C4_repeat_all_wraps c4State 0 0 0 rfl rfl (by decide) rfl).2 rfl (by norm_num)⟩

/-- C5: with `repeatMode = one`, `handleEnded` leaves the whole state
unchanged (index, play flag, settings and library) and its only effects are
the adapter calls `seek(0)` followed by `play()`. -/
theorem C5_repeat_one_restarts_in_place (s : AppState) (r : Nat)
    (h : s.repeatMode = .one) :
    handleEnded r s = (s, [.seek 0, .play]) := by
  simp [handleEnded, h]

/-- C5 witness: the restart-in-place behaviour at a concrete state. -/
theorem C5_witness :
    handleEnded 0 { initialState with repeatMode := .one } =
      ({ initialState with repeatMode := .one }, [.seek 0, .play]) :=
  C5_repeat_one_restarts_in_place { initialState with repeatMode := .one } 0 rfl

/-- C6: removing index `j` with a current selection `i` drops exactly the
track at `j` (keeping the order of the rest), decrements the index when
`j < i`, stops playback and clears the selection when `j = i`, and changes
nothing else when `j > i`. -/
theorem C6_remove_rebases_index (s : AppState) (i j : Nat)
    (hidx : s.currentIndex = some i) (hj : j < s.tracks.length) :
    ((handleRemove j s).tracks = s.tracks.take j ++ s.tracks.drop (j + 1)) ∧
    (j < i → (handleRemove j s).currentIndex = some (i - 1) ∧
      (handleRemove j s).isPlaying = s.isPlaying) ∧
    (j = i → (handleRemove j s).currentIndex = none ∧
      (handleRemove j s).isPlaying = false) ∧
    (i < j → (handleRemove j s).currentIndex = some i ∧
      (handleRemove j s).isPlaying = s.isPlaying) := by
  refine ⟨?_, fun hlt => ?_, fun heq => ?_, fun hgt => ?_⟩
  · by_cases h1 : j < i
    · simp [handleRemove, hj, hidx, h1, List.eraseIdx_eq_take_drop_succ]
    · by_cases h2 : j = i
      · subst h2
        simp [handleRemove, hj, hidx, h1, lt_irrefl, List.eraseIdx_eq_take_drop_succ]
      · simp [handleRemove, hj, hidx, h1, h2, List.eraseIdx_eq_take_drop_succ]
  · simp [handleRemove, hj, hidx, hlt]
  · subst heq
    simp [handleRemove, hj, hidx, lt_irrefl]
  · have h1 : ¬ j < i := by omega
    have h2 : ¬ j = i := by omega
    simp [handleRemove, hj, hidx, h1, h2]

/-- A two-track library with the second track selected and playing. -/
def c6State : AppState :=
  { tracks := [⟨"t1", "a", "u"⟩, ⟨"t2", "b", "v"⟩]
    currentIndex := some 1
    isPlaying := true
    shuffle := false
    repeatMode := .off
    volume := 0.8 }

/-- C6 witness: removing the track before the current one on a concrete
library. -/
theorem C6_witness :
    (handleRemove 0 c6State).tracks = c6State.tracks.take 0 ++ c6State.tracks.drop 1 ∧
    (handleRemove 0 c6State).currentIndex = some 0 ∧
    (handleRemove 0 c6State).isPlaying = c6State.isPlaying := by
  have h := C6_remove_rebases_index c6State 1 0 rfl (by decide)
  exact ⟨h.1, (h.2.1 (by decide)).1, (h.2.1 (by decide)).2⟩

/-- C8: uploading a non-empty batch onto an empty library with nothing
selected appends the tracks and selects index `0` while leaving `isPlaying`
as it was, whereas `handleSelect` at any in-range index turns `isPlaying`
on. -/
theorem C8_upload_selects_without_playing (s s₂ : AppState) (ts : List Track) (j : Int)
    (hempty : s.tracks = []) (hidx : s.currentIndex = none) (hts : ts ≠ [])
    (hj0 : 0 ≤ j) (hjlen : j < (s₂.tracks.length : Int)) :
    handleUpload ts s = { s with tracks := ts, currentIndex := some 0 } ∧
    (handleUpload ts s).isPlaying = s.isPlaying ∧
    handleSelect j s₂ = { s₂ with currentIndex := some j.toNat, isPlaying := true } := by
  have hne : ¬ ts.isEmpty = true := by simpa [List.isEmpty_iff] using hts
  have hu : handleUpload ts s = { s with tracks := ts, currentIndex := some 0 } := by
    simp [handleUpload, hne, hidx, hempty]
  have hsel : ¬ (j < 0 ∨ (s₂.tracks.length : Int) ≤ j) := by omega
  refine ⟨hu, by rw [hu], ?_⟩
  simp [handleSelect, hsel]

/-- An empty, idle state with shuffle on (settings are irrelevant to
upload). -/
def c8State : AppState :=
  { tracks := []
    currentIndex := none
    isPlaying := false
    shuffle := true
    repeatMode := .all
    volume := 0.8 }

/-- A one-track library with nothing selected. -/
def c8SelState : AppState :=
  { tracks := [⟨"t9", "z", "w"⟩]
    currentIndex := none
    isPlaying := false
    shuffle := false
    repeatMode := .off
    volume := 0.8 }

/-- C8 witness: a concrete first upload and a concrete valid selection. -/
theorem C8_witness :
    handleUpload [⟨"t1", "a", "u"⟩] c8State =
      { c8State with tracks := [⟨"t1", "a", "u"⟩], currentIndex := some 0 } ∧
    (handleUpload [⟨"t1", "a", "u"⟩] c8State).isPlaying = c8State.isPlaying ∧
    handleSelect 0 c8SelState =
      { c8SelState with currentIndex := some ((0 : Int)).toNat, isPlaying := true } :=
  C8_upload_selects_without_playing c8State c8SelState [⟨"t1", "a", "u"⟩] 0
    rfl rfl (by simp) (by norm_num) (by decide)

/-- C9: a rejected `DELETE` in server-mode `handleRemove` leaves the state
exactly as it was, and `handleSelect` at any out-of-range index (negative or
past the end) is a silent no-op. -/
theorem C9_failed_delete_atomic (s s₂ : AppState) (j : Nat) (k : Int)
    (hk : k < 0 ∨ (s₂.tracks.length : Int) ≤ k) :
    handleRemoveServer false j s = s ∧ handleSelect k s₂ = s₂ := by
  constructor
  · unfold handleRemoveServer
    split
    · rfl
    · rfl
  · simp [handleSelect, hk]

/-- A one-track library, playing its only track. -/
def c9State : AppState :=
  { tracks := [⟨"t1", "a", "u"⟩]
    currentIndex := some 0
    isPlaying := true
    shuffle := false
    repeatMode := .off
    volume := 0.8 }

/-- C9 witness: a concrete failed delete and a concrete out-of-range
selection. -/
theorem C9_witness :
    handleRemoveServer false 0 c9State = c9State ∧
    handleSelect (-1) c9State = c9State :=
  C9_failed_delete_atomic c9State c9State 0 (-1) (by norm_num)

/-- C10: from any positive volume, the mute button zeroes the volume and a
second press sets it to `0.8`; so mute–unmute restores the original volume
exactly when it was `0.8`. -/
theorem C10_mute_not_roundtrip (s : AppState) (hv : 0 < s.volume) :
    (muteToggle s).volume = 0 ∧
    (muteToggle (muteToggle s)).volume = 0.8 ∧
    ((muteToggle (muteToggle s)).volume = s.volume ↔ s.volume = 0.8) := by
  have h1 : (muteToggle s).volume = 0 := by simp [muteToggle, hv]
  have h2 : (muteToggle (muteToggle s)).volume = 0.8 := by
    simp [muteToggle, hv]
  refine ⟨h1, h2, ?_⟩
  rw [h2]
  exact eq_comm

/-- An idle state at half volume. -/
def c10State : AppState :=
  { initialState with volume := 1/2 }

/-- C10 witness: the mute round trip at volume `1/2`. -/
theorem C10_witness :
    (muteToggle c10State).volume = 0 ∧
    (muteToggle (muteToggle c10State)).volume = 0.8 ∧
    ((muteToggle (muteToggle c10State)).volume = c10State.volume ↔
      c10State.volume = 0.8) :=
  C10_mute_not_roundtrip c10State (by norm_num [c10State, initialState])

/-- `handleUpload` preserves the invariant. -/
theorem inv_upload (ts : List Track) {s : AppState} (h : Inv s) :
    Inv (handleUpload ts s) := by
  obtain ⟨h1, h2⟩ := h
  by_cases hts : ts.isEmpty = true
  · have he : handleUpload ts s = s := by simp [handleUpload, hts]
    rw [he]
    exact ⟨h1, h2⟩
  · have hlen : 0 < ts.length := by
      have hne : ts ≠ [] := by simpa [List.isEmpty_iff] using hts
      exact List.length_pos.mpr hne
    cases hc : s.currentIndex with
    | none =>
      refine ⟨fun _ => ?_, fun i hi => ?_⟩
      · simp [handleUpload, hts, hc]
      · simp [handleUpload, hts, hc] at hi ⊢
        omega
    | some k =>
      have hk := h2 k hc
      refine ⟨fun _ => ?_, fun i hi => ?_⟩
      · simp [handleUpload, hts, hc]
      · simp [handleUpload, hts, hc] at hi ⊢
        omega

/-- `handleRemove` preserves the invariant. -/
theorem inv_remove (j : Nat) {s : AppState} (h : Inv s) : Inv (handleRemove j s) := by
  obtain ⟨h1, h2⟩ := h
  by_cases hj : j < s.tracks.length
  · cases hc : s.currentIndex with
    | none =>
      refine ⟨fun hp => ?_, fun i hi => ?_⟩
      · have hp' : s.isPlaying = true := by
          simpa [handleRemove, hj, hc] using hp
        exact absurd hc (h1 hp')
      · simp [handleRemove, hj, hc] at hi
    | some k =>
      have hk := h2 k hc
      by_cases hlt : j < k
      · refine ⟨fun _ => ?_, fun i hi => ?_⟩
        · simp [handleRemove, hj, hc, hlt]
        · simp [handleRemove, hj, hc, hlt, List.length_eraseIdx] at hi ⊢
          omega
      · by_cases heq : j = k
        · subst heq
          refine ⟨fun hp => ?_, fun i hi => ?_⟩
          · simp [handleRemove, hj, hc, lt_irrefl] at hp
          · simp [handleRemove, hj, hc, lt_irrefl] at hi
        · refine ⟨fun _ => ?_, fun i hi => ?_⟩
          · simp [handleRemove, hj, hc, hlt, heq]
          · simp [handleRemove, hj, hc, hlt, heq, List.length_eraseIdx] at hi ⊢
            omega
  · have he : handleRemove j s = s := by simp [handleRemove, hj]
    rw [he]
    exact ⟨h1, h2⟩

/-- `handleSelect` preserves the invariant. -/
theorem inv_select (j : Int) {s : AppState} (h : Inv s) : Inv (handleSelect j s) := by
  obtain ⟨h1, h2⟩ := h
  by_cases hj : j < 0 ∨ (s.tracks.length : Int) ≤ j
  · have he : handleSelect j s = s := by simp [handleSelect, hj]
    rw [he]
    exact ⟨h1, h2⟩
  · refine ⟨fun _ => ?_, fun i hi => ?_⟩
    · simp [handleSelect, hj]
    · simp [handleSelect, hj] at hi ⊢
      push_neg at hj
      omega

/-- `handlePlayPause` preserves the invariant. -/
theorem inv_playPause {s : AppState} (h : Inv s) : Inv (handlePlayPause s) := by
  obtain ⟨h1, h2⟩ := h
  cases hc : s.currentIndex with
  | none =>
    by_cases hl : s.tracks.length > 0
    · refine ⟨fun _ => ?_, fun i hi => ?_⟩
      · simp [handlePlayPause, hc, hl]
      · simp [handlePlayPause, hc, hl] at hi ⊢
        omega
    · have he : handlePlayPause s = s := by simp [handlePlayPause, hc, hl]
      rw [he]
      exact ⟨h1, h2⟩
  | some k =>
    have hk := h2 k hc
    refine ⟨fun _ => ?_, fun i hi => ?_⟩
    · simp [handlePlayPause, hc]
    · simp [handlePlayPause, hc] at hi ⊢
      omega

/-- `handleNext` preserves the invariant when the random pick is in range. -/
theorem inv_next (r : Nat) {s : AppState} (h : Inv s)
    (hr : r < s.tracks.length ∨ s.tracks.length = 0) : Inv (handleNext r s) := by
  obtain ⟨h1, h2⟩ := h
  by_cases h0 : s.tracks.length = 0
  · have he : handleNext r s = s := by simp [handleNext, h0]
    rw [he]
    exact ⟨h1, h2⟩
  · have hr' : r < s.tracks.length := hr.resolve_right h0
    by_cases hsh : s.shuffle = true
    · refine ⟨fun _ => ?_, fun i hi => ?_⟩
      · simp [handleNext, h0, hsh]
      · simp [handleNext, h0, hsh] at hi ⊢
        subst hi
        split
        · exact Nat.mod_lt _ (by omega)
        · exact hr'
    · cases hc : s.currentIndex with
      | none =>
        have he : handleNext r s = s := by simp [handleNext, h0, hsh, hc]
        rw [he]
        exact ⟨h1, h2⟩
      | some k =>
        have hk := h2 k hc
        by_cases hend : k + 1 ≥ s.tracks.length
        · cases hrep : s.repeatMode with
          | all =>
            refine ⟨fun _ => ?_, fun i hi => ?_⟩
            · simp [handleNext, h0, hsh, hc, hend, hrep]
            · simp [handleNext, h0, hsh, hc, hend, hrep] at hi ⊢
              omega
          | off =>
            refine ⟨fun hp => ?_, fun i hi => ?_⟩
            · simp [handleNext, h0, hsh, hc, hend, hrep] at hp
            · simp [handleNext, h0, hsh, hc, hend, hrep] at hi ⊢
              omega
          | one =>
            refine ⟨fun hp => ?_, fun i hi => ?_⟩
            · simp [handleNext, h0, hsh, hc, hend, hrep] at hp
            · simp [handleNext, h0, hsh, hc, hend, hrep] at hi ⊢
              omega
        · refine ⟨fun _ => ?_, fun i hi => ?_⟩
          · simp [handleNext, h0, hsh, hc, hend]
          · simp [handleNext, h0, hsh, hc, hend] at hi ⊢
            omega

/-- `handlePrev` preserves the invariant when the random pick is in range. -/
theorem inv_prev (r : Nat) (t : ℚ) {s : AppState} (h : Inv s)
    (hr : r < s.tracks.length ∨ s.tracks.length = 0) : Inv (handlePrev r t s) := by
  obtain ⟨h1, h2⟩ := h
  by_cases h0 : s.tracks.length = 0
  · have he : handlePrev r t s = s := by simp [handlePrev, h0]
    rw [he]
    exact ⟨h1, h2⟩
  · by_cases ht : t > 5
    · have he : handlePrev r t s = s := by simp [handlePrev, h0, ht]
      rw [he]
      exact ⟨h1, h2⟩
    · have hr' : r < s.tracks.length := hr.resolve_right h0
      by_cases hsh : s.shuffle = true
      · refine ⟨fun _ => ?_, fun i hi => ?_⟩
        · simp [handlePrev, h0, ht, hsh]
        · simp [handlePrev, h0, ht, hsh] at hi ⊢
          subst hi
          split
          · exact Nat.mod_lt _ (by omega)
          · exact hr'
      · cases hc : s.currentIndex with
        | none =>
          have he : handlePrev r t s = s := by simp [handlePrev, h0, ht, hsh, hc]
          rw [he]
          exact ⟨h1, h2⟩
        | some k =>
          have hk := h2 k hc
          by_cases hzero : k = 0
          · cases hrep : s.repeatMode with
            | all =>
              refine ⟨fun _ => ?_, fun i hi => ?_⟩
              · simp [handlePrev, h0, ht, hsh, hc, hzero, hrep]
              · simp [handlePrev, h0, ht, hsh, hc, hzero, hrep] at hi ⊢
                omega
            | off =>
              refine ⟨fun hp => ?_, fun i hi => ?_⟩
              · simp [handlePrev, h0, ht, hsh, hc, hzero, hrep] at hp
              · simp [handlePrev, h0, ht, hsh, hc, hzero, hrep] at hi ⊢
                omega
            | one =>
              refine ⟨fun hp => ?_, fun i hi => ?_⟩
              · simp [handlePrev, h0, ht, hsh, hc, hzero, hrep] at hp
              · simp [handlePrev, h0, ht, hsh, hc, hzero, hrep] at hi ⊢
                omega
          · refine ⟨fun _ => ?_, fun i hi => ?_⟩
            · simp [handlePrev, h0, ht, hsh, hc, hzero]
            · simp [handlePrev, h0, ht, hsh, hc, hzero] at hi ⊢
              omega

/-- `handleEnded` preserves the invariant when the random pick is in range. -/
theorem inv_ended (r : Nat) {s : AppState} (h : Inv s)
    (hr : r < s.tracks.length ∨ s.tracks.length = 0) : Inv (handleEnded r s).1 := by
  unfold handleEnded
  split
  · exact h
  · exact inv_next r h hr

/-- Every reachable state satisfies the strengthened invariant. -/
theorem reachable_inv {s : AppState} (h : Reachable s) : Inv s := by
  induction h with
  | init =>
    refine ⟨fun hp => ?_, fun i hi => ?_⟩
    · simp [initialState] at hp
    · simp [initialState] at hi
  | upload ts _ ih => exact inv_upload ts ih
  | remove j _ ih => exact inv_remove j ih
  | select j _ ih => exact inv_select j ih
  | playPause _ ih => exact inv_playPause ih
  | next r _ hr ih => exact inv_next r ih hr
  | prev r t _ hr ih => exact inv_prev r t ih hr
  | ended r _ hr ih => exact inv_ended r ih hr
  | shuffleFlip _ ih => exact ih
  | repeatCycle _ ih => exact ih
  | mute _ ih => exact ih

/-- C7: in every state reachable from the initial state by the public
operations, an empty library forces no selection and no playback, and any
selection is an in-range index. -/
theorem C7_reachable_invariant (s : AppState) (h : Reachable s) :
    (s.tracks.length = 0 → s.currentIndex = none ∧ s.isPlaying = false) ∧
    (∀ i, s.currentIndex = some i → i < s.tracks.length) := by
  obtain ⟨h1, h2⟩ := reachable_inv h
  refine ⟨fun h0 => ?_, h2⟩
  have hidx : s.currentIndex = none := by
    cases hc : s.currentIndex with
    | none => rfl
    | some i =>
      have := h2 i hc
      omega
  refine ⟨hidx, ?_⟩
  cases hp : s.isPlaying with
  | false => rfl
  | true => exact absurd hidx (h1 hp)

/-- C7 witness: the invariant at the (reachable) initial state. -/
theorem C7_witness :
    (initialState.tracks.length = 0 →
      initialState.currentIndex = none ∧ initialState.isPlaying = false) ∧
    (∀ i, initialState.currentIndex = some i → i < initialState.tracks.length) :=
  C7_reachable_invariant initialState Reachable.init

end MusicApp
